import Mathlib

/-!
Verification of the `ai-image-rename` command-line tool (a single TypeScript
source file) against its natural-language specification.

The embedding models:
- the filesystem as an association list from paths to nodes (regular file with
  content and a readable flag, or directory); `fs.stat`, `fs.readFile`,
  `fs.rename` and `fs.access(R_OK)` become total functions on this state;
- the thin wrappers over Node's `path` module (`extname`, `dirname`, `join`);
- the `change-case` library calls used by `convertCase` (an external
  dependency: its word-splitting and per-format re-joining behaviour is
  modelled after the library, since only `convertCase` itself is in the repo);
- the remote description request as an `Except`-valued response parameter
  (`Except.error` models a timeout or non-2xx reply; `Except.ok none` models a
  2xx reply whose JSON lacks usable text content);
- `processImage` as a state-passing function returning the updated filesystem
  together with a `ProcessResult`; every JavaScript `throw` that the source
  catches is an `Except.error` that the embedding maps to the same branch the
  `catch` block takes;
- the `renameMutex.runExclusive` critical section as `tryRenameLocked`; since
  the mutex serialises all check-then-rename sections process-wide and every
  other pipeline step leaves the filesystem unchanged, a run of two colliding
  pipelines is modelled as the two critical sections executed in either order
  (`runTwoRenames`);
- the scheduler's per-completion counter updates (`results[result.status]++`)
  as a fold over the admitted paths (`runScheduler`).
-/

/-- A filesystem node: a regular file (with content and a readable flag used
to model `fs.access(path, R_OK)`), or a directory. -/
inductive FsNode
  | file (content : String) (readable : Bool)
  | dir
deriving DecidableEq

/-- The filesystem: an association list from paths to nodes. -/
abbrev FS := List (String × FsNode)

/-- Lookup of a path in the filesystem (models `fs.stat`: `none` means the
stat call throws ENOENT). -/
def fsStat : FS → String → Option FsNode
  | [], _ => none
  | (q, n) :: rest, p => if q = p then some n else fsStat rest p

/-- Remove a path's entry from the filesystem. -/
def fsErase (fs : FS) (p : String) : FS :=
  fs.filter (fun e => !(e.1 == p))

/-- `fs.rename(src, dst)`: fails (throws) when the source does not exist or
the destination is a directory; otherwise moves the node, silently replacing
any regular file at the destination (POSIX overwrite semantics). -/
def fsRename (fs : FS) (src dst : String) : Except Unit FS :=
  match fsStat fs src, fsStat fs dst with
  | none, _ => .error ()
  | some _, some .dir => .error ()
  | some n, _ => .ok ((dst, n) :: fsErase (fsErase fs src) dst)

/-- `doesFileExist` from the source: `fs.stat` followed by `stats.isFile()`,
with every stat failure mapped to `false` by the `catch` block. -/
def doesFileExist (fs : FS) (filePath : String) : Bool :=
  match fsStat fs filePath with
  | some (.file _ _) => true
  | _ => false

/-- `fs.access(path, R_OK)` as a Boolean: readable regular file, or a
directory (readability of directories is irrelevant here because the caller
checks `doesFileExist` first). -/
def fsAccessR (fs : FS) (p : String) : Bool :=
  match fsStat fs p with
  | some (.file _ r) => r
  | some .dir => true
  | none => false

/-- `fs.readFile`: succeeds exactly on a readable regular file (a missing
path, a directory, or a permission error all throw). -/
def fsReadFile (fs : FS) (p : String) : Except Unit String :=
  match fsStat fs p with
  | some (.file c true) => .ok c
  | _ => .error ()

/-- `isFileReadable` from the source: existence-as-regular-file check first,
then an `fs.access(_, R_OK)` probe whose failure is caught and mapped to
`false`. -/
def isFileReadable (fs : FS) (filePath : String) : Bool :=
  doesFileExist fs filePath && fsAccessR fs filePath

/-- `path.extname`: the suffix of the basename from its last dot, empty when
the basename has no dot or only a leading dot. -/
def extname (p : String) : String :=
  let base := (p.data.reverse.takeWhile (fun c => c ≠ '/')).reverse
  let afterDot := base.reverse.takeWhile (fun c => c ≠ '.')
  if afterDot.length = base.length then ""
  else if afterDot.length + 1 = base.length then ""
  else String.mk ('.' :: afterDot.reverse)

/-- `path.dirname`: everything before the last slash; `"."` when there is no
slash, `"/"` when the last slash is the first character. (Trailing-slash
normalisation is not needed for the image paths handled here.) -/
def dirname (p : String) : String :=
  let cs := p.data
  let baseLen := (cs.reverse.takeWhile (fun c => c ≠ '/')).length
  if baseLen = cs.length then "."
  else if cs.length - baseLen - 1 = 0 then "/"
  else String.mk (cs.take (cs.length - baseLen - 1))

/-- `path.join(a, b)` for the shapes produced by `dirname`: joining onto `"."`
yields `b` itself (Node normalises away the leading `./`), joining onto `"/"`
prepends a single slash, and otherwise a slash separates the two parts. -/
def joinPath (a b : String) : String :=
  if a = "" ∨ a = "." then b
  else if a = "/" then "/" ++ b
  else a ++ "/" ++ b

/-- `ALLOWED_EXTENSIONS` from the source. -/
def ALLOWED_EXTENSIONS : List String := [".png", ".jpg", ".jpeg", ".webp"]

/-- JavaScript `s.trim()`: strip leading and trailing whitespace. -/
def jsTrim (s : String) : String :=
  String.mk (((s.data.dropWhile Char.isWhitespace).reverse.dropWhile
    Char.isWhitespace).reverse)

/-- Lower-case every character of a string. -/
def lowerStr (s : String) : String := String.mk (s.data.map Char.toLower)

/-- `[a-zA-Z0-9]`, the characters the `change-case` splitter keeps. -/
def isWordChar (c : Char) : Bool := c.isAlpha || c.isDigit

/-- Flush the (reversed) current word accumulator into a singleton list. -/
def flushWord (cur : List Char) : List String :=
  if cur.isEmpty then [] else [String.mk cur.reverse]

/-- Core of the `change-case` word splitter: words break at non-alphanumeric
characters (which are dropped), at a lower-or-digit to upper transition, and
before the last upper of an upper-upper-lower run. The current word is
accumulated in reverse. -/
def splitWordsGo : List Char → List Char → List String → List String
  | [], cur, acc => acc ++ flushWord cur
  | c :: rest, cur, acc =>
    if !(isWordChar c) then splitWordsGo rest [] (acc ++ flushWord cur)
    else
      match cur with
      | [] => splitWordsGo rest [c] acc
      | p :: ps =>
        if c.isUpper && (p.isLower || p.isDigit) then
          splitWordsGo rest [c] (acc ++ flushWord cur)
        else
          match ps with
          | q :: _ =>
            if c.isLower && p.isUpper && q.isUpper then
              splitWordsGo rest [c, p] (acc ++ flushWord ps)
            else splitWordsGo rest (c :: cur) acc
          | [] => splitWordsGo rest (c :: cur) acc

/-- Split a string into its case words, as the `change-case` library does. -/
def splitWords (s : String) : List String := splitWordsGo s.data [] []

/-- Upper-case the first character of a word and lower-case the rest
(the `change-case` capital transform). -/
def capitalizeWord (w : String) : String :=
  match w.data with
  | [] => ""
  | c :: cs => String.mk (c.toUpper :: cs.map Char.toLower)

/-- `changeCase.snakeCase`: lower-cased words joined with underscores. -/
def snakeCase (s : String) : String :=
  String.intercalate "_" ((splitWords s).map lowerStr)

/-- `changeCase.kebabCase`: lower-cased words joined with hyphens. -/
def kebabCase (s : String) : String :=
  String.intercalate "-" ((splitWords s).map lowerStr)

/-- `changeCase.pascalCase`: capitalised words joined without separator. -/
def pascalCase (s : String) : String :=
  String.join ((splitWords s).map capitalizeWord)

/-- `changeCase.camelCase`: first word lower-cased, the rest capitalised,
joined without separator. -/
def camelCase (s : String) : String :=
  match splitWords s with
  | [] => ""
  | w :: ws => String.join (lowerStr w :: ws.map capitalizeWord)

/-- `changeCase.capitalCase`: capitalised words joined with spaces. -/
def capitalCase (s : String) : String :=
  String.intercalate " " ((splitWords s).map capitalizeWord)

/-- `changeCase.noCase`: lower-cased words joined with spaces. -/
def noCase (s : String) : String :=
  String.intercalate " " ((splitWords s).map lowerStr)

/-- `changeCase.sentenceCase`: first word capitalised, the rest lower-cased,
joined with spaces. -/
def sentenceCase (s : String) : String :=
  match splitWords s with
  | [] => ""
  | w :: ws => String.intercalate " " (capitalizeWord w :: ws.map lowerStr)

/-- The `Format` union type from the source. -/
inductive Format
  | snake | kebab | pascal | camel | capital | lowercase | sentence
deriving DecidableEq

/-- The `switch (format)` body of `convertCase` (the `default` arm of the
source is unreachable for a well-typed `Format`). -/
def casingOf (format : Format) (name : String) : String :=
  match format with
  | .snake => snakeCase name
  | .kebab => kebabCase name
  | .pascal => pascalCase name
  | .camel => camelCase name
  | .capital => capitalCase name
  | .lowercase => noCase name
  | .sentence => sentenceCase name

/-- JavaScript `s.substring(0, 200)`: the prefix of at most 200 characters. -/
def substring200 (s : String) : String := String.mk (s.data.take 200)

/-- `convertCase` from the source: the selected casing conversion, then
`.trim()`, then `.substring(0, 200)`. -/
def convertCase (name : String) (format : Format) : String :=
  substring200 (jsTrim (casingOf format name))

/-- The `ProcessResult` union type from the source. -/
inductive ProcessResult
  | success (newPath : String)
  | skipped
  | error
deriving DecidableEq

/-- The `ProcessStatus` type from the source (`ProcessResult['status']`). -/
inductive ProcessStatus
  | success
  | skipped
  | error
deriving DecidableEq

/-- The `status` discriminant of a `ProcessResult`. -/
def ProcessResult.status : ProcessResult → ProcessStatus
  | .success _ => .success
  | .skipped => .skipped
  | .error => .error

/-- `getNewFilename`, as a function of the OpenRouter response. `Except.error`
models a fetch failure (timeout via `AbortSignal.timeout(10000)`) or the
`throw` on a non-ok (non-2xx) response; `Except.ok none` models a 2xx body
whose `choices?.[0]?.message?.content` chain yields no string. The source then
trims the content and throws when the result is falsy (empty). -/
def getNewFilename (response : Except Unit (Option String)) : Except Unit String :=
  match response with
  | .error _ => .error ()
  | .ok data =>
    match data with
    | none => .error ()
    | some raw =>
      let content := jsTrim raw
      if content = "" then .error () else .ok content

/-- The body of `renameMutex.runExclusive` in `processImage`, together with
the enclosing `catch`'s handling of a `fs.rename` failure: check whether the
destination already exists as a regular file, skip if so, otherwise attempt
the rename. The filesystem after the critical section is returned alongside
the result. -/
def tryRenameLocked (fs : FS) (src dst : String) : FS × ProcessResult :=
  if doesFileExist fs dst then (fs, .skipped)
  else
    match fsRename fs src dst with
    | .ok fs2 => (fs2, .success dst)
    | .error _ => (fs, .error)

/-- `processImage` from the source, with the remote description response as an
explicit parameter. `imageToBase64`'s only failure mode relevant here is the
`fs.readFile` call (its base64 and mime-type bookkeeping cannot throw), and
every thrown error is caught by the surrounding `try`/`catch` and mapped to
the `error` status with the filesystem untouched. -/
def processImage (fs : FS) (imagePath : String) (format : Format)
    (response : Except Unit (Option String)) : FS × ProcessResult :=
  match fsReadFile fs imagePath with
  | .error _ => (fs, .error)
  | .ok _ =>
    match getNewFilename response with
    | .error _ => (fs, .error)
    | .ok aiName =>
      if aiName = "" then (fs, .skipped)
      else
        let sanitizedName := convertCase aiName format
        if sanitizedName = "" then (fs, .skipped)
        else
          let newFilePath := joinPath (dirname imagePath) (sanitizedName ++ extname imagePath)
          if imagePath = newFilePath then (fs, .skipped)
          else tryRenameLocked fs imagePath newFilePath

/-- Two pipelines that computed the same destination `d`, reduced to their
serialised critical sections: the mutex admits them in one of two orders
(every step outside the critical section leaves the filesystem unchanged, so
the interleaving of those steps is irrelevant). Returns the final filesystem
and the two files' results. -/
def runTwoRenames (fs : FS) (s1 s2 d : String) (firstIsOne : Bool) :
    FS × ProcessResult × ProcessResult :=
  if firstIsOne then
    let step1 := tryRenameLocked fs s1 d
    let step2 := tryRenameLocked step1.1 s2 d
    (step2.1, step1.2, step2.2)
  else
    let step1 := tryRenameLocked fs s2 d
    let step2 := tryRenameLocked step1.1 s1 d
    (step2.1, step2.2, step1.2)

/-- `filterValidImagePaths` from the source: keep the paths that exist as
readable regular files and whose lower-cased extension is allowed. The
returned `Set` is modelled as a duplicate-free list in insertion order. -/
def filterValidImagePaths (fs : FS) (imagePaths : List String) : List String :=
  imagePaths.foldl
    (fun acc pth =>
      if isFileReadable fs pth && ALLOWED_EXTENSIONS.contains (lowerStr (extname pth))
          && !(acc.contains pth)
      then acc ++ [pth] else acc)
    []

/-- The `results` record of `main`: one counter per `ProcessStatus`. -/
structure RunSummary where
  success : Nat
  skipped : Nat
  error : Nat
deriving DecidableEq

/-- One `results[result.status]++` update of `main`'s per-task callback. -/
def tally (acc : RunSummary) : ProcessStatus → RunSummary
  | .success => { acc with success := acc.success + 1 }
  | .skipped => { acc with skipped := acc.skipped + 1 }
  | .error => { acc with error := acc.error + 1 }

/-- The scheduler's counter aggregation: every admitted path's pipeline runs
exactly once (`Array.from(validImagePaths).map` builds one task per element of
the set) and its completion increments exactly one counter. `outcome` gives
the status each path's `processImage` call produced; the counters are
order-independent, so the completion order chosen by `p-limit` is irrelevant
to the final summary. -/
def runScheduler (paths : List String) (outcome : String → ProcessStatus) : RunSummary :=
  paths.foldl (fun acc p => tally acc (outcome p)) ⟨0, 0, 0⟩

/-- A two-file fixture: two distinct readable source images and no file at
the collision destination "car.jpg". -/
def twoSourceFS : FS := [("a.jpg", FsNode.file "A" true), ("b.jpg", FsNode.file "B" true)]

/-! ## Helper lemmas -/

lemma fsStat_erase_ne : ∀ (l : FS) (p q : String), q ≠ p →
    fsStat (fsErase l p) q = fsStat l q
  | [], _, _, _ => rfl
  | (k, n) :: rest, p, q, h => by
    have ih := fsStat_erase_ne rest p q h
    simp only [fsErase] at ih ⊢
    by_cases hk : k = p
    · subst hk
      have hkq : ¬ (k = q) := fun hkq => h (hkq ▸ rfl)
      simp [List.filter_cons, fsStat, hkq, ih]
    · have hbe : (k == p) = false := beq_eq_false_iff_ne.mpr hk
      by_cases hkq : k = q
      · subst hkq
        simp [List.filter_cons, fsStat, hbe]
      · simp [List.filter_cons, fsStat, hbe, hkq, ih]

lemma tryRenameLocked_shape (fs : FS) (src dst : String) :
    tryRenameLocked fs src dst = (fs, .skipped) ∨
    tryRenameLocked fs src dst = (fs, .error) ∨
    ∃ fs2, tryRenameLocked fs src dst = (fs2, .success dst) := by
  unfold tryRenameLocked
  by_cases h : doesFileExist fs dst
  · exact Or.inl (by simp [h])
  · rcases hr : fsRename fs src dst with e | fs2
    · exact Or.inr (Or.inl (by simp [h, hr]))
    · exact Or.inr (Or.inr ⟨fs2, by simp [h, hr]⟩)

lemma processImage_shape (fs : FS) (path : String) (fmt : Format)
    (resp : Except Unit (Option String)) :
    processImage fs path fmt resp = (fs, .error) ∨
    processImage fs path fmt resp = (fs, .skipped) ∨
    ∃ dst, processImage fs path fmt resp = tryRenameLocked fs path dst := by
  unfold processImage
  rcases h1 : fsReadFile fs path with e | c
  · exact Or.inl rfl
  · rcases h2 : getNewFilename resp with e | aiName
    · exact Or.inl rfl
    · by_cases h3 : aiName = ""
      · exact Or.inr (Or.inl (by simp [h3]))
      · by_cases h4 : convertCase aiName fmt = ""
        · exact Or.inr (Or.inl (by simp [h3, h4]))
        · by_cases h5 : path = joinPath (dirname path) (convertCase aiName fmt ++ extname path)
          · refine Or.inr (Or.inl ?_)
            simp only [h3, h4, if_false, reduceIte]
            rw [if_pos h5]
          · exact Or.inr (Or.inr
              ⟨joinPath (dirname path) (convertCase aiName fmt ++ extname path),
               by simp [h3, h4, h5]⟩)

/-! ## Claim theorems -/

/-- C6: `convertCase` applies the casing conversion, then the trim, then the
truncation to at most 200 characters by prefix cut, and its result therefore
always has length at most 200, for inputs of any length. -/
theorem convertCase_order_and_length (name : String) (format : Format) :
    convertCase name format = substring200 (jsTrim (casingOf format name)) ∧
    (convertCase name format).length ≤ 200 := by
  refine ⟨rfl, ?_⟩
  show (String.mk ((jsTrim (casingOf format name)).data.take 200)).length ≤ 200
  have h : (String.mk ((jsTrim (casingOf format name)).data.take 200)).length
      = ((jsTrim (casingOf format name)).data.take 200).length := rfl
  rw [h, List.length_take]
  exact min_le_left _ _

/-- C7: on the candidate name "Red Sports Car" the name transformer returns
"red_sports_car" under snake, "red-sports-car" under kebab, "RedSportsCar"
under pascal and "Red Sports Car" under capital. -/
theorem convertCase_red_sports_car :
    convertCase "Red Sports Car" Format.snake = "red_sports_car" ∧
    convertCase "Red Sports Car" Format.kebab = "red-sports-car" ∧
    convertCase "Red Sports Car" Format.pascal = "RedSportsCar" ∧
    convertCase "Red Sports Car" Format.capital = "Red Sports Car" := by
  refine ⟨?_, ?_, ?_, ?_⟩ <;> decide

/-- C5: when the description request times out or returns a non-2xx response
(`Except.error`), or returns a response lacking usable text content
(`Except.ok none`), the file's outcome is `error` and the filesystem is
returned unchanged: no rename happens for that file. -/
theorem describeFailure_error_untouched (fs : FS) (path : String) (fmt : Format) :
    processImage fs path fmt (.error ()) = (fs, .error) ∧
    processImage fs path fmt (.ok none) = (fs, .error) := by
  constructor <;>
    · unfold processImage
      rcases h : fsReadFile fs path with e | c <;> simp [getNewFilename]

/-- C4 counterexample: a 2xx response whose content is whitespace only (so the
candidate name is empty after trimming) drives `processImage` to the `error`
outcome, not `skipped`: `getNewFilename` throws on falsy trimmed content
before the pipeline's own empty-name skip branch can run. -/
theorem emptyDescription_not_skipped :
    jsTrim "   " = "" ∧
    processImage [("a.jpg", FsNode.file "x" true)] "a.jpg" Format.snake
      (Except.ok (some "   "))
      = ([("a.jpg", FsNode.file "x" true)], ProcessResult.error) ∧
    (processImage [("a.jpg", FsNode.file "x" true)] "a.jpg" Format.snake
      (Except.ok (some "   "))).2 ≠ ProcessResult.skipped := by
  refine ⟨?_, ?_, ?_⟩ <;> decide

/-- C4 amended: when the remote description capability returns content that is
empty after trimming, the file's outcome is `error` (the description client
rejects the empty content as unusable) and the filesystem is unchanged; the
pipeline's own `Describing → Skipped` branch for an empty candidate name is
unreachable. -/
theorem emptyDescription_error (fs : FS) (path : String) (fmt : Format)
    (raw : String) (h : jsTrim raw = "") :
    processImage fs path fmt (.ok (some raw)) = (fs, .error) := by
  unfold processImage
  rcases hr : fsReadFile fs path with e | c
  · rfl
  · simp [getNewFilename, h]

/-- C4 amended, witness at a concrete input. -/
theorem emptyDescription_error_witness :
    processImage [("a.jpg", FsNode.file "x" true)] "a.jpg" Format.kebab
      (Except.ok (some " ")) = ([("a.jpg", FsNode.file "x" true)], .error) :=
  emptyDescription_error [("a.jpg", FsNode.file "x" true)] "a.jpg" Format.kebab
    " " (by decide)

/-- C2 counterexample: with an empty filesystem the destination "b.jpg" does
not exist, yet the check-then-rename step does not yield `Success`: the
underlying rename call fails (the source is absent, as when another process
removed it between validation and rename) and the outcome is `error`. -/
theorem tryRename_not_always_success :
    doesFileExist ([] : FS) "b.jpg" = false ∧
    tryRenameLocked ([] : FS) "a.jpg" "b.jpg" = ([], ProcessResult.error) ∧
    (tryRenameLocked ([] : FS) "a.jpg" "b.jpg").2 ≠ ProcessResult.success "b.jpg" := by
  refine ⟨?_, ?_, ?_⟩ <;> decide

/-- C2 amended: if the destination exists as a regular file at check time, the
step returns `skipped` and the filesystem (hence both the existing destination
file and the source file) is unchanged, without invoking the rename call;
otherwise the rename is attempted: if the underlying rename call succeeds the
result is `success` carrying the new path and the updated filesystem, and if
it fails the result is `error` with the filesystem unchanged. -/
theorem tryRename_check_then_rename (fs : FS) (src dst : String) :
    (doesFileExist fs dst = true → tryRenameLocked fs src dst = (fs, .skipped)) ∧
    (doesFileExist fs dst = false →
      (∀ fs2, fsRename fs src dst = .ok fs2 →
        tryRenameLocked fs src dst = (fs2, .success dst)) ∧
      (∀ e, fsRename fs src dst = .error e →
        tryRenameLocked fs src dst = (fs, .error))) := by
  unfold tryRenameLocked
  refine ⟨fun h => by simp [h], fun h => ⟨fun fs2 hr => ?_, fun e hr => ?_⟩⟩ <;>
    simp [h, hr]

/-- C2 amended, witness: destination present → skipped with the filesystem
unchanged. -/
theorem tryRename_check_then_rename_witness :
    doesFileExist [("b.jpg", FsNode.file "B" true)] "b.jpg" = true ∧
    tryRenameLocked [("b.jpg", FsNode.file "B" true)] "a.jpg" "b.jpg"
      = ([("b.jpg", FsNode.file "B" true)], .skipped) :=
  ⟨by decide,
   (tryRename_check_then_rename [("b.jpg", FsNode.file "B" true)] "a.jpg" "b.jpg").1
     (by decide)⟩

/-- C8: when the computed destination path is textually identical to the
source path, the outcome is `skipped` and the filesystem is returned
unchanged: the critical section and the rename call are never entered. -/
theorem selfDestination_skipped (fs : FS) (path : String) (fmt : Format)
    (raw : String) (hread : (fsReadFile fs path).isOk = true)
    (hname : jsTrim raw ≠ "")
    (hdest : joinPath (dirname path) (convertCase (jsTrim raw) fmt ++ extname path)
      = path) :
    processImage fs path fmt (.ok (some raw)) = (fs, .skipped) := by
  unfold processImage
  rcases hr : fsReadFile fs path with e | c
  · rw [hr] at hread; exact absurd hread (by simp [Except.isOk, Except.toBool])
  · simp only [getNewFilename, if_neg hname]
    by_cases hsan : convertCase (jsTrim raw) fmt = ""
    · simp [hname, hsan]
    · simp only [hname, hsan, if_false, reduceIte]
      rw [if_pos hdest.symm]

/-- C8 witness: "photos/red_car.jpg" described as "red car" under the snake
format maps to itself, so the pipeline skips it and the filesystem is
unchanged. -/
theorem selfDestination_skipped_witness :
    processImage [("photos/red_car.jpg", FsNode.file "x" true)]
      "photos/red_car.jpg" Format.snake (Except.ok (some "red car"))
      = ([("photos/red_car.jpg", FsNode.file "x" true)], .skipped) :=
  selfDestination_skipped [("photos/red_car.jpg", FsNode.file "x" true)]
    "photos/red_car.jpg" Format.snake "red car" (by decide) (by decide) (by decide)

lemma foldl_tally (outcome : String → ProcessStatus) :
    ∀ (l : List String) (acc : RunSummary),
    l.foldl (fun a p => tally a (outcome p)) acc =
      { success := acc.success + l.countP (fun p => decide (outcome p = .success)),
        skipped := acc.skipped + l.countP (fun p => decide (outcome p = .skipped)),
        error := acc.error + l.countP (fun p => decide (outcome p = .error)) }
  | [], acc => by simp
  | p :: l, acc => by
    rw [List.foldl_cons, foldl_tally outcome l]
    rcases hp : outcome p with _ | _ | _ <;>
      simp [tally, List.countP_cons, hp, RunSummary.mk.injEq] <;> omega

lemma countP_statuses (outcome : String → ProcessStatus) : ∀ l : List String,
    l.countP (fun p => decide (outcome p = .success)) +
    l.countP (fun p => decide (outcome p = .skipped)) +
    l.countP (fun p => decide (outcome p = .error)) = l.length
  | [] => rfl
  | p :: l => by
    have ih := countP_statuses outcome l
    rcases hp : outcome p with _ | _ | _ <;> simp [List.countP_cons, hp] <;> omega

lemma filterValid_aux (fs : FS) (p : String)
    (hbad : ALLOWED_EXTENSIONS.contains (lowerStr (extname p)) = false ∨
      isFileReadable fs p = false) :
    ∀ (l : List String) (acc : List String), p ∉ acc →
    p ∉ l.foldl
      (fun acc pth =>
        if isFileReadable fs pth && ALLOWED_EXTENSIONS.contains (lowerStr (extname pth))
            && !(acc.contains pth)
        then acc ++ [pth] else acc) acc
  | [], _, h => h
  | q :: l, acc, h => by
    rw [List.foldl_cons]
    refine filterValid_aux fs p hbad l _ ?_
    by_cases hq : q = p
    · subst hq
      have hc : (isFileReadable fs q && ALLOWED_EXTENSIONS.contains (lowerStr (extname q))
          && !(acc.contains q)) = false := by
        rcases hbad with hb | hb
        · have hb' : lowerStr (extname q) ∉ ALLOWED_EXTENSIONS := by simpa using hb
          simp [hb']
        · simp [hb]
      simp only [hc, Bool.false_eq_true, if_false]
      exact h
    · by_cases hc : (isFileReadable fs q && ALLOWED_EXTENSIONS.contains (lowerStr (extname q))
          && !(acc.contains q)) = true
      · simp only [hc, if_true]
        simp only [List.mem_append, List.mem_singleton, not_or]
        exact ⟨h, fun he => hq he.symm⟩
      · simp only [hc, Bool.false_eq_true, if_false]
        exact h

lemma runScheduler_skip_congr (p : String) (f g : String → ProcessStatus)
    (hfg : ∀ q, q ≠ p → f q = g q) :
    ∀ (l : List String), p ∉ l → ∀ acc : RunSummary,
      l.foldl (fun a q => tally a (f q)) acc = l.foldl (fun a q => tally a (g q)) acc
  | [], _, _ => rfl
  | q :: l, hl, acc => by
    have hq : q ≠ p := fun hqe => hl (hqe ▸ List.mem_cons_self q l)
    have hl' : p ∉ l := fun hm => hl (List.mem_cons_of_mem q hm)
    rw [List.foldl_cons, List.foldl_cons, hfg q hq]
    exact runScheduler_skip_congr p f g hfg l hl' _

lemma collide_pair (fs : FS) (sa sb d : String) (ca : String) (ba : Bool)
    (ha : fsStat fs sa = some (.file ca ba)) (hd : fsStat fs d = none) :
    tryRenameLocked fs sa d
      = ((d, .file ca ba) :: fsErase (fsErase fs sa) d, .success d) ∧
    tryRenameLocked ((d, .file ca ba) :: fsErase (fsErase fs sa) d) sb d
      = ((d, .file ca ba) :: fsErase (fsErase fs sa) d, .skipped) := by
  constructor
  · simp [tryRenameLocked, doesFileExist, fsRename, ha, hd]
  · simp [tryRenameLocked, doesFileExist, fsStat]

/-- C3: for every run, each admitted path's completion increments exactly the
counter of its status, so every counter equals the number of admitted paths
with that status and the three counters sum to the number of admitted paths:
no path is counted twice and none is dropped. -/
theorem scheduler_counts (paths : List String) (outcome : String → ProcessStatus) :
    (runScheduler paths outcome).success
      = paths.countP (fun p => decide (outcome p = .success)) ∧
    (runScheduler paths outcome).skipped
      = paths.countP (fun p => decide (outcome p = .skipped)) ∧
    (runScheduler paths outcome).error
      = paths.countP (fun p => decide (outcome p = .error)) ∧
    (runScheduler paths outcome).success + (runScheduler paths outcome).skipped
      + (runScheduler paths outcome).error = paths.length := by
  have h := foldl_tally outcome paths ⟨0, 0, 0⟩
  unfold runScheduler
  rw [h]
  refine ⟨by simp, by simp, by simp, ?_⟩
  simpa using countP_statuses outcome paths

/-- C9: a path whose lower-cased extension is not in the allowed set, or that
does not exist as a readable regular file, is excluded by the validation
filter (so it is never handed to the scheduler), and the run summary does not
depend on any outcome assigned to it: it contributes to no counter. -/
theorem invalidPath_excluded (fs : FS) (paths : List String) (p : String)
    (hbad : ALLOWED_EXTENSIONS.contains (lowerStr (extname p)) = false ∨
      isFileReadable fs p = false) :
    p ∉ filterValidImagePaths fs paths ∧
    (∀ f g : String → ProcessStatus, (∀ q, q ≠ p → f q = g q) →
      runScheduler (filterValidImagePaths fs paths) f
        = runScheduler (filterValidImagePaths fs paths) g) := by
  have hmem : p ∉ filterValidImagePaths fs paths :=
    filterValid_aux fs p hbad paths [] (by simp)
  exact ⟨hmem, fun f g hfg =>
    runScheduler_skip_congr p f g hfg (filterValidImagePaths fs paths) hmem ⟨0, 0, 0⟩⟩

/-- C9 witness: an unsupported `.gif` extension is excluded even on a
filesystem where the file exists and is readable. -/
theorem invalidPath_excluded_witness :
    "a.gif" ∉ filterValidImagePaths [("a.gif", FsNode.file "x" true)] ["a.gif"] :=
  (invalidPath_excluded [("a.gif", FsNode.file "x" true)] ["a.gif"] "a.gif"
    (Or.inl (by decide))).1

/-- C10: the pipeline is total at its boundary: `processImage` always returns
one result whose status is success, skipped or error; a failing image read or
a failing description request is caught and mapped to the error status with
the filesystem untouched; and on every non-success outcome the filesystem is
returned unchanged, so no fault or partial state escapes to the scheduler. -/
theorem processImage_boundary (fs : FS) (path : String) (fmt : Format)
    (resp : Except Unit (Option String)) :
    ((processImage fs path fmt resp).2.status = .success ∨
     (processImage fs path fmt resp).2.status = .skipped ∨
     (processImage fs path fmt resp).2.status = .error) ∧
    (∀ e, fsReadFile fs path = .error e →
      processImage fs path fmt resp = (fs, .error)) ∧
    (∀ e, resp = .error e → processImage fs path fmt resp = (fs, .error)) ∧
    ((processImage fs path fmt resp).2.status ≠ .success →
      (processImage fs path fmt resp).1 = fs) := by
  refine ⟨?_, ?_, ?_, ?_⟩
  · rcases h : (processImage fs path fmt resp).2 with d | _ | _ <;>
      simp [ProcessResult.status]
  · intro e he
    unfold processImage
    rw [he]
  · intro e he
    subst he
    unfold processImage
    rcases h : fsReadFile fs path with e' | c <;> rfl
  · intro hns
    rcases processImage_shape fs path fmt resp with h | h | ⟨dst, h⟩
    · rw [h]
    · rw [h]
    · rw [h] at hns ⊢
      rcases tryRenameLocked_shape fs path dst with h2 | h2 | ⟨fs2, h2⟩
      · rw [h2]
      · rw [h2]
      · rw [h2] at hns
        exact absurd (rfl : ProcessStatus.success = ProcessStatus.success) hns

/-- C10 witness: a failing read (missing source on an empty filesystem) is
contained as an `error` outcome with the filesystem unchanged. -/
theorem processImage_boundary_witness :
    processImage ([] : FS) "a.jpg" Format.snake (Except.ok (some "red car"))
      = ([], .error) :=
  (processImage_boundary [] "a.jpg" Format.snake (Except.ok (some "red car"))).2.1
    () rfl

/-- C1: two pipelines that independently computed the same fresh destination
`d` from distinct existing sources pass through the serialised critical
section in one of two orders; in both orders exactly one obtains `success`
and the other `skipped`, neither errors (no exception escapes), and the final
destination holds exactly one of the two source files — nothing is
overwritten. -/
theorem collision_one_success_one_skipped (fs : FS) (s1 s2 d : String)
    (c1 c2 : String) (b1 b2 : Bool)
    (h1 : fsStat fs s1 = some (.file c1 b1))
    (h2 : fsStat fs s2 = some (.file c2 b2))
    (hd : fsStat fs d = none) (h12 : s1 ≠ s2) :
    ∀ ord : Bool,
      (((runTwoRenames fs s1 s2 d ord).2.1 = .success d ∧
        (runTwoRenames fs s1 s2 d ord).2.2 = .skipped) ∨
       ((runTwoRenames fs s1 s2 d ord).2.1 = .skipped ∧
        (runTwoRenames fs s1 s2 d ord).2.2 = .success d)) ∧
      (runTwoRenames fs s1 s2 d ord).2.1 ≠ .error ∧
      (runTwoRenames fs s1 s2 d ord).2.2 ≠ .error ∧
      (fsStat (runTwoRenames fs s1 s2 d ord).1 d = fsStat fs s1 ∨
       fsStat (runTwoRenames fs s1 s2 d ord).1 d = fsStat fs s2) := by
  intro ord
  cases ord
  case false =>
    obtain ⟨e1, e2⟩ := collide_pair fs s2 s1 d c2 b2 h2 hd
    have hrun : runTwoRenames fs s1 s2 d false
        = ((d, .file c2 b2) :: fsErase (fsErase fs s2) d, .skipped, .success d) := by
      simp [runTwoRenames, e1, e2]
    rw [hrun]
    refine ⟨Or.inr ⟨rfl, rfl⟩, by simp, by simp, Or.inr ?_⟩
    simp [fsStat, h2]
  case true =>
    obtain ⟨e1, e2⟩ := collide_pair fs s1 s2 d c1 b1 h1 hd
    have hrun : runTwoRenames fs s1 s2 d true
        = ((d, .file c1 b1) :: fsErase (fsErase fs s1) d, .success d, .skipped) := by
      simp [runTwoRenames, e1, e2]
    rw [hrun]
    refine ⟨Or.inl ⟨rfl, rfl⟩, by simp, by simp, Or.inl ?_⟩
    simp [fsStat, h1]

/-- C1 witness: on the two-file fixture, with the mutex admitting the first
pipeline first, the first file wins the rename and the second is skipped. -/
theorem collision_one_success_one_skipped_witness :
    ((runTwoRenames twoSourceFS "a.jpg" "b.jpg" "car.jpg" true).2.1
        = .success "car.jpg" ∧
      (runTwoRenames twoSourceFS "a.jpg" "b.jpg" "car.jpg" true).2.2 = .skipped) ∨
    ((runTwoRenames twoSourceFS "a.jpg" "b.jpg" "car.jpg" true).2.1 = .skipped ∧
      (runTwoRenames twoSourceFS "a.jpg" "b.jpg" "car.jpg" true).2.2
        = .success "car.jpg") :=
  ((collision_one_success_one_skipped twoSourceFS "a.jpg" "b.jpg" "car.jpg"
    "A" "B" true true (by decide) (by decide) (by decide) (by decide)) true).1
